import Mathlib

/-!
Shallow embedding of the search-digest pipeline in `src/main.py` (a FastAPI
service around `duckduckgo_search`, `aiohttp` and `newspaper`).

Python strings are modelled as lists of Unicode code points (`List Nat`);
URLs and error messages, which are only compared and concatenated, are kept
as Lean `String`s.  External capabilities (the search provider, the HTTP
fetch, the article-extraction routine, `urlparse(...).netloc`, and
`random.uniform(0,1)`) are parameters of the embedded functions: the code
under verification is exactly the glue in `src/main.py`.
-/

namespace DDGS

/-- The code points Python's `str.strip()` removes, restricted to the ASCII
range (after `clean_text`'s replacement step every character is ASCII):
`\t \n \v \f \r` (9-13), the separator controls 28-31, and the space 32. -/
def pyIsSpace (c : Nat) : Bool :=
  (9 ≤ c && c ≤ 13) || (28 ≤ c && c ≤ 31) || c == 32

/-- One character of the generator in `clean_text`:
`char if ord(char) < 128 else ' '`. -/
def asciiOrSpace (c : Nat) : Nat :=
  if c < 128 then c else 32

/-- Python's `str.strip()` on an ASCII-only string: drop the maximal
whitespace prefix and suffix. -/
def pyStrip (l : List Nat) : List Nat :=
  (((l.dropWhile pyIsSpace).reverse).dropWhile pyIsSpace).reverse

/-- `clean_text` (src/main.py lines 23-26):
empty (falsy) input returns `""`; otherwise each non-ASCII character is
replaced by a space and the result is stripped. -/
def cleanText (text : List Nat) : List Nat :=
  if text.isEmpty then [] else pyStrip (text.map asciiOrSpace)

/-- `clean_text` applied to an optional string: Python's `if not text`
also sends `None` to `""`. -/
def cleanTextOpt : Option (List Nat) → List Nat
  | none => []
  | some s => cleanText s

/-- The dictionary returned by `fetch_and_parse_article`: either the
success shape `{"title": ..., "text": ...}` or the error shape
`{"url": ..., "error": ...}`. -/
inductive ArticleExtract where
  | success (title text : List Nat)
  | failure (url : String) (error : String)
  deriving DecidableEq, Repr

/-- Outcome of the `session.get(url, timeout=10)` block (and of the
`Article(url)` construction preceding it): either a response with a status
code and a body, or an exception (connection error, timeout, bad URL). -/
inductive FetchOutcome where
  | status (code : Nat) (html : List Nat)
  | exn (msg : String)
  deriving DecidableEq, Repr

/-- Outcome of `article.set_html(html); article.parse()` followed by reading
`article.title` / `article.text`: extracted title and body, or an
extraction exception. -/
inductive ParseOutcome where
  | ok (title text : List Nat)
  | exn (msg : String)
  deriving DecidableEq, Repr

/-- `fetch_and_parse_article` (src/main.py lines 28-44), with the network
and the extraction routine supplied as oracles.  A non-200 status returns
the error shape without parsing; the `except Exception` arm converts any
exception into the error shape; on 200 the parsed title is cleaned and the
parsed text is truncated to 10000 characters and cleaned. -/
def fetch_and_parse_article (url : String) (fetch : FetchOutcome)
    (parse : List Nat → ParseOutcome) : ArticleExtract :=
  match fetch with
  | .exn m => .failure url m
  | .status code html =>
    if code ≠ 200 then
      .failure url ("HTTP " ++ toString code)
    else
      match parse html with
      | .exn m => .failure url m
      | .ok t x => .success (cleanText t) (cleanText (x.take 10000))

/-- One raw search result; only the `href` field is read
(`result.get('href')`, which may be absent). -/
structure SearchResult where
  href : Option String
  deriving DecidableEq, Repr

/-- The deduplication loop of `get_material` (src/main.py lines 60-71),
with `seen_domains` made explicit.  `netloc` stands for
`urlparse(url).netloc`.  Python's `if not url: continue` skips falsy
values: a missing `href` (`None`) and the empty string alike. -/
def dedupeGo (netloc : String → String) (seen : List String) :
    List SearchResult → List String
  | [] => []
  | r :: rs =>
    match r.href with
    | none => dedupeGo netloc seen rs
    | some url =>
      if url = "" then dedupeGo netloc seen rs
      else if netloc url ∈ seen then dedupeGo netloc seen rs
      else url :: dedupeGo netloc (netloc url :: seen) rs

/-- `urls` as built from `results` in `get_material`: skip entries with a
falsy `href`, keep the first URL per domain, in input order. -/
def dedupe (netloc : String → String) (results : List SearchResult) : List String :=
  dedupeGo netloc [] results

/-- The URL the loop considers for one result: its `href` when present and
non-empty, nothing when `if not url` fires. -/
def candidateOf (r : SearchResult) : Option String :=
  match r.href with
  | none => none
  | some url => if url = "" then none else some url

/-- All URLs the loop considers, in input order. -/
def candidateUrls (results : List SearchResult) : List String :=
  results.filterMap candidateOf

/-- The code points of a Lean string literal, for the f-string prefixes. -/
def codesOf (s : String) : List Nat :=
  s.data.map Char.toNat

/-- The lines appended to `formatted_results` (src/main.py lines 80-86):
for each success dict, `Title: ...`, `Text: ...` and `"-" * 5`; error
dicts contribute nothing. -/
def formatLines : List ArticleExtract → List (List Nat)
  | [] => []
  | .success t x :: rest =>
      (codesOf "Title: " ++ t) :: (codesOf "Text: " ++ x) ::
        List.replicate 5 45 :: formatLines rest
  | .failure _ _ :: rest => formatLines rest

/-- `"\n".join(formatted_results)` (src/main.py line 87). -/
def digestOf (articles : List ArticleExtract) : List Nat :=
  List.intercalate [10] (formatLines articles)

/-- One completion event of `asyncio.gather`: the task at index `i`
finishes and its result is stored at slot `i`. -/
def gatherStep {α : Type} (res : Nat → α) (acc : List (Option α)) (i : Nat) :
    List (Option α) :=
  acc.set i (some (res i))

/-- `asyncio.gather(*tasks)` run under an explicit completion schedule:
starting from `n` empty slots, the tasks finish in the order given by
`sched`, each writing its own result into its own slot. -/
def gatherRun {α : Type} (res : Nat → α) (n : Nat) (sched : List Nat) :
    List (Option α) :=
  sched.foldl (gatherStep res) (List.replicate n none)

/-- The fan-out of `get_material` (src/main.py lines 73-79): one
`fetch_and_parse_article` task per URL, gathered under completion
schedule `sched`.  `f url` is the worker result for `url`. -/
def fanOut (f : String → ArticleExtract) (urls : List String)
    (sched : List Nat) : List (Option ArticleExtract) :=
  gatherRun (fun i => f (urls.getD i "")) urls.length sched

/-- The body of a successful search attempt (src/main.py lines 57-87):
empty results short-circuit to `""`; otherwise dedupe, fetch every URL
(the deterministic result of the gather), and format the digest. -/
def processResults (netloc : String → String) (f : String → ArticleExtract)
    (results : List SearchResult) : List Nat :=
  if results.isEmpty then []
  else digestOf ((dedupe netloc results).map f)

/-- Outcome of one `ddgs.atext` call: a result list, a retryable error
(`RatelimitException` / `DuckDuckGoSearchException`), or any other
exception. -/
inductive AttemptOutcome where
  | results (rs : List SearchResult)
  | retryableErr (msg : String)
  | fatalErr (msg : String)

/-- Observable trace of one `get_material` call: how many `ddgs.atext`
attempts ran, the `asyncio.sleep` delays in order, and the outcome
(`none` models the implicit `return None` when the loop is never
entered). -/
structure RunTrace where
  attemptsMade : Nat
  delays : List ℚ
  result : Option (Except String (List Nat))

/-- The retry loop of `get_material` (src/main.py lines 53-97).  `fuel` is
the number of remaining loop iterations (`maxRetries - attempt`);
`jitter i` stands for the `random.uniform(0, 1)` drawn after attempt
`i`. -/
def getMaterialLoop (oc : Nat → AttemptOutcome) (jitter : Nat → ℚ)
    (process : List SearchResult → List Nat) (maxRetries : Nat) (d0 : ℚ) :
    Nat → Nat → List ℚ → RunTrace
  | attempt, 0, delays => ⟨attempt, delays, none⟩
  | attempt, fuel + 1, delays =>
    match oc attempt with
    | .results rs => ⟨attempt + 1, delays, some (.ok (process rs))⟩
    | .fatalErr m => ⟨attempt + 1, delays, some (.error m)⟩
    | .retryableErr m =>
      if attempt = maxRetries - 1 then ⟨attempt + 1, delays, some (.error m)⟩
      else getMaterialLoop oc jitter process maxRetries d0 (attempt + 1) fuel
        (delays ++ [d0 * 2 ^ attempt + jitter attempt])

/-- `get_material(keyword, max_retries, initial_delay)` with its external
collaborators as oracles: `oc i` is what `ddgs.atext` does on attempt `i`,
`netloc` is `urlparse(.).netloc`, and `f` is the per-URL worker result. -/
def get_material (oc : Nat → AttemptOutcome) (jitter : Nat → ℚ)
    (netloc : String → String) (f : String → ArticleExtract)
    (maxRetries : Nat) (d0 : ℚ) : RunTrace :=
  getMaterialLoop oc jitter (processResults netloc f) maxRetries d0 0 maxRetries []

/-- The HTTP response of `POST /search` (src/main.py lines 103-109):
`{"results": ...}` with 200 on success, `HTTPException(500, str(e))`
when `get_material` raises. -/
inductive ApiResponse where
  | ok (digest : Option (List Nat))
  | err (detail : String)

/-- The `/search` endpoint applied to an already-run `get_material`
trace. -/
def searchEndpoint (tr : RunTrace) : ApiResponse :=
  match tr.result with
  | some (.ok d) => .ok (some d)
  | some (.error e) => .err e
  | none => .ok none

/-- HTTP status of an `ApiResponse`. -/
def statusOf : ApiResponse → Nat
  | .ok _ => 200
  | .err _ => 500

/-! ### Lemmas about `clean_text` -/

theorem asciiOrSpace_lt (c : Nat) : asciiOrSpace c < 128 := by
  unfold asciiOrSpace; split <;> omega

theorem mem_pyStrip {l : List Nat} {c : Nat} (h : c ∈ pyStrip l) : c ∈ l := by
  unfold pyStrip at h
  rw [List.mem_reverse] at h
  have h1 : c ∈ (l.dropWhile pyIsSpace).reverse :=
    (List.dropWhile_sublist pyIsSpace).subset h
  rw [List.mem_reverse] at h1
  exact (List.dropWhile_sublist pyIsSpace).subset h1

theorem head?_dropWhile {p : Nat → Bool} {c : Nat} :
    ∀ {l : List Nat}, (l.dropWhile p).head? = some c → p c = false := by
  intro l
  induction l with
  | nil => intro h; simp [List.dropWhile] at h
  | cons a t ih =>
    intro h
    rw [List.dropWhile_cons] at h
    by_cases hp : p a = true
    · rw [if_pos hp] at h; exact ih h
    · rw [if_neg hp] at h
      simp at h
      rw [← h]
      simpa using hp

theorem dropWhile_eq_self_of_head {p : Nat → Bool} {l : List Nat}
    (h : ∀ c, l.head? = some c → p c = false) : l.dropWhile p = l := by
  cases l with
  | nil => rfl
  | cons a t => simp [List.dropWhile_cons, h a rfl]

theorem pyStrip_getLast? {l : List Nat} {c : Nat}
    (h : (pyStrip l).getLast? = some c) : pyIsSpace c = false := by
  unfold pyStrip at h
  rw [List.getLast?_reverse] at h
  exact head?_dropWhile h

theorem pyStrip_head? {l : List Nat} {c : Nat}
    (h : (pyStrip l).head? = some c) : pyIsSpace c = false := by
  unfold pyStrip at h
  rw [List.head?_reverse] at h
  set m := (l.dropWhile pyIsSpace).reverse with hm
  obtain ⟨t, ht⟩ := List.dropWhile_suffix (l := m) pyIsSpace
  cases hd : m.dropWhile pyIsSpace with
  | nil => rw [hd] at h; simp at h
  | cons b s =>
    have hlast : m.getLast? = some c := by
      rw [← ht, hd, List.getLast?_append]
      rw [hd] at h
      rw [h]
      rfl
    rw [hm, List.getLast?_reverse] at hlast
    exact head?_dropWhile hlast

theorem pyStrip_idem (l : List Nat) : pyStrip (pyStrip l) = pyStrip l := by
  have h1 : (pyStrip l).dropWhile pyIsSpace = pyStrip l :=
    dropWhile_eq_self_of_head fun c hc => pyStrip_head? hc
  have h2 : (pyStrip l).reverse.dropWhile pyIsSpace = (pyStrip l).reverse :=
    dropWhile_eq_self_of_head fun c hc => by
      rw [List.head?_reverse] at hc
      exact pyStrip_getLast? hc
  show ((((pyStrip l).dropWhile pyIsSpace).reverse).dropWhile pyIsSpace).reverse = pyStrip l
  rw [h1, h2, List.reverse_reverse]

theorem pyStrip_decomp (l : List Nat) :
    ∃ pre post, l = pre ++ pyStrip l ++ post
      ∧ (∀ c ∈ pre, pyIsSpace c = true) ∧ (∀ c ∈ post, pyIsSpace c = true) := by
  refine ⟨l.takeWhile pyIsSpace,
    ((l.dropWhile pyIsSpace).reverse.takeWhile pyIsSpace).reverse, ?_, ?_, ?_⟩
  · conv_lhs => rw [← List.takeWhile_append_dropWhile pyIsSpace l]
    rw [List.append_assoc]
    congr 1
    conv_lhs => rw [← List.reverse_reverse (l.dropWhile pyIsSpace)]
    conv_lhs =>
      rw [← List.takeWhile_append_dropWhile pyIsSpace (l.dropWhile pyIsSpace).reverse]
    rw [List.reverse_append]
    rfl
  · intro c hc; exact List.mem_takeWhile_imp hc
  · intro c hc
    rw [List.mem_reverse] at hc
    exact List.mem_takeWhile_imp hc

theorem cleanText_eq (s : List Nat) :
    cleanText s = pyStrip (s.map asciiOrSpace) := by
  unfold cleanText
  split
  · rename_i h
    rw [List.isEmpty_iff] at h
    subst h
    rfl
  · rfl

theorem mem_cleanText_lt {s : List Nat} {c : Nat} (h : c ∈ cleanText s) :
    c < 128 := by
  rw [cleanText_eq] at h
  obtain ⟨d, _, hd⟩ := List.mem_map.1 (mem_pyStrip h)
  rw [← hd]
  exact asciiOrSpace_lt d

theorem cleanText_idem (s : List Nat) : cleanText (cleanText s) = cleanText s := by
  rw [cleanText_eq (cleanText s)]
  have hmap : (cleanText s).map asciiOrSpace = cleanText s := by
    conv_rhs => rw [← List.map_id (cleanText s)]
    apply List.map_congr_left
    intro c hc
    unfold asciiOrSpace
    rw [if_pos (mem_cleanText_lt hc)]
    rfl
  rw [hmap, cleanText_eq s, pyStrip_idem]

/-- C8: `clean_text` replaces each non-ASCII character with a single space
and trims leading/trailing whitespace from the result; empty and `None`
inputs give the empty string. -/
theorem clean_text_spec (s : List Nat) :
    cleanText s = pyStrip (List.map asciiOrSpace s)
    ∧ (∃ pre post, List.map asciiOrSpace s = pre ++ cleanText s ++ post
        ∧ (∀ c ∈ pre, pyIsSpace c = true) ∧ (∀ c ∈ post, pyIsSpace c = true))
    ∧ (∀ c ∈ s, 128 ≤ c → asciiOrSpace c = 32)
    ∧ cleanText [] = ([] : List Nat) ∧ cleanTextOpt none = [] := by
  refine ⟨cleanText_eq s, ?_, ?_, rfl, rfl⟩
  · obtain ⟨pre, post, hsplit, hpre, hpost⟩ := pyStrip_decomp (s.map asciiOrSpace)
    exact ⟨pre, post, by rw [cleanText_eq s, ← hsplit], hpre, hpost⟩
  · intro c _ hc
    unfold asciiOrSpace
    rw [if_neg (by omega)]

/-- C8 witness: an em-dash (U+2014) becomes a space and the trailing
space is trimmed. -/
theorem clean_text_spec_witness :
    cleanText [8212, 97, 32] = pyStrip (List.map asciiOrSpace [8212, 97, 32])
    ∧ asciiOrSpace 8212 = 32 :=
  ⟨(clean_text_spec [8212, 97, 32]).1,
    (clean_text_spec [8212, 97, 32]).2.2.1 8212 (by decide) (by decide)⟩

/-- C10: every character of `clean_text s` is ASCII (< 128), the result has
no leading or trailing whitespace, and `clean_text` is idempotent. -/
theorem clean_text_invariants (s : List Nat) :
    (∀ c ∈ cleanText s, c < 128)
    ∧ (∀ c, (cleanText s).head? = some c → pyIsSpace c = false)
    ∧ (∀ c, (cleanText s).getLast? = some c → pyIsSpace c = false)
    ∧ cleanText (cleanText s) = cleanText s := by
  refine ⟨fun c hc => mem_cleanText_lt hc, ?_, ?_, cleanText_idem s⟩
  · intro c hc
    rw [cleanText_eq] at hc
    exact pyStrip_head? hc
  · intro c hc
    rw [cleanText_eq] at hc
    exact pyStrip_getLast? hc

/-! ### Lemmas about `fetch_and_parse_article` -/

theorem fetch_eq_exn (url : String) (m : String)
    (parse : List Nat → ParseOutcome) :
    fetch_and_parse_article url (FetchOutcome.exn m) parse
      = ArticleExtract.failure url m := rfl

theorem fetch_eq_status (url : String) (code : Nat) (html : List Nat)
    (parse : List Nat → ParseOutcome) :
    fetch_and_parse_article url (FetchOutcome.status code html) parse
      = if code ≠ 200 then ArticleExtract.failure url ("HTTP " ++ toString code)
        else match parse html with
          | .exn m => ArticleExtract.failure url m
          | .ok t x =>
              ArticleExtract.success (cleanText t) (cleanText (x.take 10000)) := rfl

theorem fetch_and_parse_article_ok (url : String) (html : List Nat)
    (parse : List Nat → ParseOutcome) (t x : List Nat)
    (h : parse html = ParseOutcome.ok t x) :
    fetch_and_parse_article url (FetchOutcome.status 200 html) parse
      = ArticleExtract.success (cleanText t) (cleanText (x.take 10000)) := by
  rw [fetch_eq_status, if_neg (by simp), h]

theorem map_asciiOrSpace_id {l : List Nat} (h : ∀ c ∈ l, c < 128) :
    l.map asciiOrSpace = l := by
  conv_rhs => rw [← List.map_id l]
  apply List.map_congr_left
  intro c hc
  unfold asciiOrSpace
  rw [if_pos (h c hc)]
  rfl

theorem dropWhile_space_replicate (n : Nat) (l : List Nat) :
    List.dropWhile pyIsSpace (List.replicate n 32 ++ l)
      = List.dropWhile pyIsSpace l := by
  induction n with
  | zero => rfl
  | succ k ih =>
    rw [List.replicate_succ, List.cons_append, List.dropWhile_cons,
      if_pos (by decide : pyIsSpace 32 = true)]
    exact ih

theorem cleanText_replicate_space (n : Nat) :
    cleanText (List.replicate n 32) = [] := by
  rw [cleanText_eq, List.map_replicate]
  show pyStrip (List.replicate n (asciiOrSpace 32)) = []
  have h32 : asciiOrSpace 32 = 32 := rfl
  rw [h32]
  unfold pyStrip
  have hd : List.dropWhile pyIsSpace (List.replicate n 32) = [] := by
    have := dropWhile_space_replicate n []
    simpa using this
  rw [hd]
  rfl

theorem cleanText_spaces_then_a (n : Nat) :
    cleanText (List.replicate n 32 ++ [97]) = [97] := by
  rw [cleanText_eq, List.map_append, List.map_replicate]
  have h32 : asciiOrSpace 32 = 32 := rfl
  have h97 : List.map asciiOrSpace [97] = [97] := rfl
  rw [h32, h97]
  unfold pyStrip
  rw [dropWhile_space_replicate]
  rfl

/-- C1 counterexample: the code cleans the raw title without truncating it.
With a raw title of 10000 spaces followed by `a`, the returned title is
`"a"`, while the clean-image of the first 10000 title characters is `""`. -/
theorem fetch_title_not_truncated_cex :
    fetch_and_parse_article "u" (FetchOutcome.status 200 [])
        (fun _ => ParseOutcome.ok (List.replicate 10000 32 ++ [97]) [])
      ≠ ArticleExtract.success
          (cleanText (List.take 10000 (List.replicate 10000 32 ++ [97])))
          (cleanText (List.take 10000 ([] : List Nat))) := by
  have hL := fetch_and_parse_article_ok "u" []
    (fun _ => ParseOutcome.ok (List.replicate 10000 32 ++ [97]) [])
    (List.replicate 10000 32 ++ [97]) [] rfl
  rw [hL, cleanText_spaces_then_a 10000]
  have hR : cleanText (List.take 10000 (List.replicate 10000 32 ++ [97])) = [] := by
    rw [List.take_left' (by rw [List.length_replicate])]
    exact cleanText_replicate_space 10000
  rw [hR]
  intro h
  injection h with h1 h2
  exact absurd h1 (by decide)

/-- C1 amended: on a 200 response whose extraction succeeds, the returned
text is the clean-image of the first 10000 characters of the raw text, and
the returned title is the clean-image of the whole raw title (the title is
cleaned but not truncated). -/
theorem fetch_success_cleaning (url : String) (html : List Nat)
    (parse : List Nat → ParseOutcome) (t x : List Nat)
    (h : parse html = ParseOutcome.ok t x) :
    fetch_and_parse_article url (FetchOutcome.status 200 html) parse
      = ArticleExtract.success (cleanText t) (cleanText (x.take 10000)) :=
  fetch_and_parse_article_ok url html parse t x h

/-- C1 witness: a concrete successful extraction. -/
theorem fetch_success_cleaning_witness :
    fetch_and_parse_article "u" (FetchOutcome.status 200 [])
        (fun _ => ParseOutcome.ok [66] [67])
      = ArticleExtract.success (cleanText [66]) (cleanText (List.take 10000 [67])) :=
  fetch_success_cleaning "u" [] (fun _ => ParseOutcome.ok [66] [67]) [66] [67] rfl

/-- C4: `fetch_and_parse_article` never throws.  A fetch exception becomes
the error shape with its message; a non-200 status becomes
`HTTP <status>` without consulting the extraction routine; an extraction
exception becomes the error shape; and every result is either
success-shaped or error-shaped for the requested URL. -/
theorem fetch_never_throws :
    (∀ (url : String) (parse : List Nat → ParseOutcome) (m : String),
      fetch_and_parse_article url (FetchOutcome.exn m) parse
        = ArticleExtract.failure url m)
    ∧ (∀ (url : String) (code : Nat) (html : List Nat)
        (p q : List Nat → ParseOutcome), code ≠ 200 →
        fetch_and_parse_article url (FetchOutcome.status code html) p
          = ArticleExtract.failure url ("HTTP " ++ toString code)
        ∧ fetch_and_parse_article url (FetchOutcome.status code html) p
          = fetch_and_parse_article url (FetchOutcome.status code html) q)
    ∧ (∀ (url : String) (html : List Nat) (parse : List Nat → ParseOutcome)
        (m : String), parse html = ParseOutcome.exn m →
        fetch_and_parse_article url (FetchOutcome.status 200 html) parse
          = ArticleExtract.failure url m)
    ∧ (∀ (url : String) (html : List Nat) (parse : List Nat → ParseOutcome)
        (t x : List Nat), parse html = ParseOutcome.ok t x →
        ∃ a b, fetch_and_parse_article url (FetchOutcome.status 200 html) parse
          = ArticleExtract.success a b)
    ∧ (∀ (url : String) (fe : FetchOutcome) (pa : List Nat → ParseOutcome),
        (∃ t x, fetch_and_parse_article url fe pa = ArticleExtract.success t x)
        ∨ (∃ e, fetch_and_parse_article url fe pa = ArticleExtract.failure url e)) := by
  refine ⟨fun url parse m => rfl, ?_, ?_, ?_, ?_⟩
  · intro url code html p q hc
    constructor <;> rw [fetch_eq_status, if_pos hc]
    rw [fetch_eq_status, if_pos hc]
  · intro url html parse m h
    rw [fetch_eq_status, if_neg (by simp), h]
  · intro url html parse t x h
    exact ⟨_, _, fetch_and_parse_article_ok url html parse t x h⟩
  · intro url fe pa
    cases fe with
    | exn m => exact Or.inr ⟨m, rfl⟩
    | status code html =>
      by_cases hc : code = 200
      · subst hc
        cases hp : pa html with
        | ok t x =>
          exact Or.inl ⟨_, _, fetch_and_parse_article_ok url html pa t x hp⟩
        | exn m =>
          refine Or.inr ⟨m, ?_⟩
          rw [fetch_eq_status, if_neg (by simp), hp]
      · refine Or.inr ⟨"HTTP " ++ toString code, ?_⟩
        rw [fetch_eq_status, if_pos hc]

/-- C4 witness: the three failure shapes at concrete inputs. -/
theorem fetch_never_throws_witness :
    fetch_and_parse_article "u" (FetchOutcome.exn "boom")
        (fun _ => ParseOutcome.ok [] []) = ArticleExtract.failure "u" "boom"
    ∧ fetch_and_parse_article "u" (FetchOutcome.status 404 [])
        (fun _ => ParseOutcome.ok [] [])
      = ArticleExtract.failure "u" ("HTTP " ++ toString 404)
    ∧ fetch_and_parse_article "u" (FetchOutcome.status 200 [])
        (fun _ => ParseOutcome.exn "no article")
      = ArticleExtract.failure "u" "no article" :=
  ⟨fetch_never_throws.1 "u" (fun _ => ParseOutcome.ok [] []) "boom",
    (fetch_never_throws.2.1 "u" 404 [] (fun _ => ParseOutcome.ok [] [])
      (fun _ => ParseOutcome.ok [] []) (by decide)).1,
    fetch_never_throws.2.2.1 "u" [] (fun _ => ParseOutcome.exn "no article")
      "no article" rfl⟩

/-! ### Lemmas about the deduplication loop -/

theorem candidateOf_ne_empty {r : SearchResult} {url : String}
    (h : candidateOf r = some url) : url ≠ "" := by
  cases hr : r.href with
  | none => simp [candidateOf, hr] at h
  | some v =>
    by_cases hv : v = ""
    · simp [candidateOf, hr, hv] at h
    · simp only [candidateOf, hr, if_neg hv, Option.some.injEq] at h
      rw [← h]
      exact hv

theorem dedupeGo_cons_none (netloc : String → String) (seen : List String)
    {r : SearchResult} (rs : List SearchResult) (h : candidateOf r = none) :
    dedupeGo netloc seen (r :: rs) = dedupeGo netloc seen rs := by
  cases hr : r.href with
  | none => simp [dedupeGo, hr]
  | some v =>
    by_cases hv : v = ""
    · simp [dedupeGo, hr, hv]
    · simp [candidateOf, hr, hv] at h

theorem dedupeGo_cons_some (netloc : String → String) (seen : List String)
    {r : SearchResult} (rs : List SearchResult) {url : String}
    (h : candidateOf r = some url) :
    dedupeGo netloc seen (r :: rs)
      = if netloc url ∈ seen then dedupeGo netloc seen rs
        else url :: dedupeGo netloc (netloc url :: seen) rs := by
  cases hr : r.href with
  | none => simp [candidateOf, hr] at h
  | some v =>
    by_cases hv : v = ""
    · simp [candidateOf, hr, hv] at h
    · simp only [candidateOf, hr, if_neg hv, Option.some.injEq] at h
      subst h
      simp [dedupeGo, hr, hv]

theorem candidateUrls_cons_none {r : SearchResult} (rs : List SearchResult)
    (h : candidateOf r = none) :
    candidateUrls (r :: rs) = candidateUrls rs := by
  simp [candidateUrls, List.filterMap_cons, h]

theorem candidateUrls_cons_some {r : SearchResult} (rs : List SearchResult)
    {url : String} (h : candidateOf r = some url) :
    candidateUrls (r :: rs) = url :: candidateUrls rs := by
  simp [candidateUrls, List.filterMap_cons, h]

theorem candidateUrls_sublist_hrefs (results : List SearchResult) :
    (candidateUrls results).Sublist (results.filterMap SearchResult.href) := by
  induction results with
  | nil => exact List.Sublist.refl _
  | cons r rs ih =>
    cases hr : r.href with
    | none =>
      rw [candidateUrls_cons_none rs (by simp [candidateOf, hr])]
      simpa [List.filterMap_cons, hr] using ih
    | some url =>
      by_cases hurl : url = ""
      · rw [candidateUrls_cons_none rs (by simp [candidateOf, hr, hurl])]
        simp only [List.filterMap_cons, hr]
        exact ih.cons url
      · rw [candidateUrls_cons_some rs
          (show candidateOf r = some url by simp [candidateOf, hr, hurl])]
        simp only [List.filterMap_cons, hr]
        exact ih.cons₂ url

theorem dedupeGo_sublist (netloc : String → String) :
    ∀ (rs : List SearchResult) (seen : List String),
      (dedupeGo netloc seen rs).Sublist (candidateUrls rs) := by
  intro rs
  induction rs with
  | nil => intro seen; exact List.Sublist.refl _
  | cons r rs ih =>
    intro seen
    cases hc : candidateOf r with
    | none =>
      rw [dedupeGo_cons_none netloc seen rs hc, candidateUrls_cons_none rs hc]
      exact ih seen
    | some url =>
      rw [dedupeGo_cons_some netloc seen rs hc, candidateUrls_cons_some rs hc]
      by_cases hmem : netloc url ∈ seen
      · rw [if_pos hmem]
        exact (ih seen).cons url
      · rw [if_neg hmem]
        exact (ih (netloc url :: seen)).cons₂ url

theorem dedupeGo_mem_notin_seen (netloc : String → String) :
    ∀ (rs : List SearchResult) (seen : List String),
      ∀ u ∈ dedupeGo netloc seen rs, netloc u ∉ seen := by
  intro rs
  induction rs with
  | nil => intro seen u hu; simp [dedupeGo] at hu
  | cons r rs ih =>
    intro seen u hu
    cases hc : candidateOf r with
    | none =>
      rw [dedupeGo_cons_none netloc seen rs hc] at hu
      exact ih seen u hu
    | some url =>
      rw [dedupeGo_cons_some netloc seen rs hc] at hu
      by_cases hmem : netloc url ∈ seen
      · rw [if_pos hmem] at hu
        exact ih seen u hu
      · rw [if_neg hmem] at hu
        rcases List.mem_cons.1 hu with h | h
        · subst h; exact hmem
        · intro hin
          exact ih (netloc url :: seen) u h (List.mem_cons_of_mem _ hin)

theorem dedupeGo_ne_empty (netloc : String → String) :
    ∀ (rs : List SearchResult) (seen : List String),
      ∀ u ∈ dedupeGo netloc seen rs, u ≠ "" := by
  intro rs
  induction rs with
  | nil => intro seen u hu; simp [dedupeGo] at hu
  | cons r rs ih =>
    intro seen u hu
    cases hc : candidateOf r with
    | none =>
      rw [dedupeGo_cons_none netloc seen rs hc] at hu
      exact ih seen u hu
    | some url =>
      rw [dedupeGo_cons_some netloc seen rs hc] at hu
      by_cases hmem : netloc url ∈ seen
      · rw [if_pos hmem] at hu
        exact ih seen u hu
      · rw [if_neg hmem] at hu
        rcases List.mem_cons.1 hu with h | h
        · subst h
          exact candidateOf_ne_empty hc
        · exact ih (netloc url :: seen) u h

theorem dedupeGo_hosts_nodup (netloc : String → String) :
    ∀ (rs : List SearchResult) (seen : List String),
      (List.map netloc (dedupeGo netloc seen rs)).Nodup := by
  intro rs
  induction rs with
  | nil => intro seen; simp [dedupeGo]
  | cons r rs ih =>
    intro seen
    cases hc : candidateOf r with
    | none =>
      rw [dedupeGo_cons_none netloc seen rs hc]
      exact ih seen
    | some url =>
      rw [dedupeGo_cons_some netloc seen rs hc]
      by_cases hmem : netloc url ∈ seen
      · rw [if_pos hmem]; exact ih seen
      · rw [if_neg hmem]
        rw [List.map_cons, List.nodup_cons]
        refine ⟨?_, ih (netloc url :: seen)⟩
        intro hin
        obtain ⟨u, hu, hequ⟩ := List.mem_map.1 hin
        have := dedupeGo_mem_notin_seen netloc rs (netloc url :: seen) u hu
        exact this (by rw [hequ]; exact List.mem_cons_self _ _)

theorem dedupeGo_first (netloc : String → String) :
    ∀ (rs : List SearchResult) (seen : List String),
      ∀ u ∈ dedupeGo netloc seen rs,
        (candidateUrls rs).find? (fun v => netloc v == netloc u) = some u := by
  intro rs
  induction rs with
  | nil => intro seen u hu; simp [dedupeGo] at hu
  | cons r rs ih =>
    intro seen u hu
    cases hc : candidateOf r with
    | none =>
      rw [dedupeGo_cons_none netloc seen rs hc] at hu
      rw [candidateUrls_cons_none rs hc]
      exact ih seen u hu
    | some url =>
      rw [dedupeGo_cons_some netloc seen rs hc] at hu
      rw [candidateUrls_cons_some rs hc]
      by_cases hmem : netloc url ∈ seen
      · rw [if_pos hmem] at hu
        have hne : netloc u ∉ seen := dedupeGo_mem_notin_seen netloc rs seen u hu
        have hud : netloc url ≠ netloc u := fun he => hne (he ▸ hmem)
        rw [List.find?_cons]
        have hb : (netloc url == netloc u) = false := beq_eq_false_iff_ne.2 hud
        rw [hb]
        exact ih seen u hu
      · rw [if_neg hmem] at hu
        rcases List.mem_cons.1 hu with h | h
        · subst h
          rw [List.find?_cons]
          have hb : (netloc u == netloc u) = true := beq_self_eq_true _
          rw [hb]
        · have hne : netloc u ∉ netloc url :: seen :=
            dedupeGo_mem_notin_seen netloc rs (netloc url :: seen) u h
          have hud : netloc url ≠ netloc u := by
            intro he
            exact hne (by rw [← he]; exact List.mem_cons_self _ _)
          rw [List.find?_cons]
          have hb : (netloc url == netloc u) = false := beq_eq_false_iff_ne.2 hud
          rw [hb]
          exact ih (netloc url :: seen) u h

theorem dedupeGo_covers (netloc : String → String) :
    ∀ (rs : List SearchResult) (seen : List String),
      ∀ v ∈ candidateUrls rs,
        netloc v ∈ seen ∨ ∃ u ∈ dedupeGo netloc seen rs, netloc u = netloc v := by
  intro rs
  induction rs with
  | nil => intro seen v hv; simp [candidateUrls] at hv
  | cons r rs ih =>
    intro seen v hv
    cases hc : candidateOf r with
    | none =>
      rw [candidateUrls_cons_none rs hc] at hv
      rw [dedupeGo_cons_none netloc seen rs hc]
      exact ih seen v hv
    | some url =>
      rw [candidateUrls_cons_some rs hc] at hv
      rw [dedupeGo_cons_some netloc seen rs hc]
      by_cases hmem : netloc url ∈ seen
      · rw [if_pos hmem]
        rcases List.mem_cons.1 hv with h | h
        · subst h; exact Or.inl hmem
        · exact ih seen v h
      · rw [if_neg hmem]
        rcases List.mem_cons.1 hv with h | h
        · subst h
          exact Or.inr ⟨v, List.mem_cons_self _ _, rfl⟩
        · rcases ih (netloc url :: seen) v h with hin | ⟨u, hu, hequ⟩
          · rcases List.mem_cons.1 hin with he | he
            · exact Or.inr ⟨url, List.mem_cons_self _ _, he.symm⟩
            · exact Or.inl he
          · exact Or.inr ⟨u, List.mem_cons_of_mem _ hu, hequ⟩

theorem dedupeGo_of_nodup (netloc : String → String) :
    ∀ (l : List String) (seen : List String),
      (List.map netloc l).Nodup → (∀ u ∈ l, netloc u ∉ seen) →
      (∀ u ∈ l, u ≠ "") →
      dedupeGo netloc seen (l.map fun u => SearchResult.mk (some u)) = l := by
  intro l
  induction l with
  | nil => intro seen _ _ _; rfl
  | cons u l ih =>
    intro seen hnd hseen hne
    rw [List.map_cons]
    rw [dedupeGo_cons_some netloc seen _
      (show candidateOf (SearchResult.mk (some u)) = some u by
        simp [candidateOf, hne u (List.mem_cons_self _ _)])]
    rw [if_neg (hseen u (List.mem_cons_self _ _))]
    congr 1
    rw [List.map_cons, List.nodup_cons] at hnd
    apply ih _ hnd.2
    · intro v hv hin
      rcases List.mem_cons.1 hin with he | he
      · exact hnd.1 (by rw [← he]; exact List.mem_map_of_mem netloc hv)
      · exact hseen v (List.mem_cons_of_mem _ hv) he
    · intro v hv
      exact hne v (List.mem_cons_of_mem _ hv)

/-- C5 counterexample: `if not url: continue` (src/main.py line 64) also
skips an empty-string `href`.  With both entries on one common host and
the first `href` the empty string, the loop keeps `"x"`, which is not the
first URL-carrying entry with that host (`""` is), so the claimed
first-URL-per-host property over the entries carrying a URL fails. -/
theorem dedupe_first_url_cex :
    ¬ ∀ u ∈ dedupe (fun _ => "h")
          [SearchResult.mk (some ""), SearchResult.mk (some "x")],
        ([SearchResult.mk (some ""),
            SearchResult.mk (some "x")].filterMap SearchResult.href).find?
          (fun v => (fun _ : String => "h") v == (fun _ : String => "h") u)
          = some u := by
  intro h
  have hx := h "x" (by decide)
  exact absurd hx (by decide)

/-- C5 amended: deduplication skips entries whose URL is missing or empty
(Python's falsy check), the output is a subsequence of the input URLs with
at most one URL per distinct host and no empty URL, and for each distinct
host the kept URL is the first non-empty URL seen with that host; every
host among the non-empty URLs is represented. -/
theorem dedupe_spec (netloc : String → String) (results : List SearchResult) :
    (dedupe netloc results).Sublist (results.filterMap SearchResult.href)
    ∧ (List.map netloc (dedupe netloc results)).Nodup
    ∧ (∀ u ∈ dedupe netloc results, u ≠ "")
    ∧ (∀ u ∈ dedupe netloc results,
        (candidateUrls results).find? (fun v => netloc v == netloc u) = some u)
    ∧ (∀ v ∈ candidateUrls results,
        ∃ u ∈ dedupe netloc results, netloc u = netloc v) := by
  refine ⟨(dedupeGo_sublist netloc results []).trans
      (candidateUrls_sublist_hrefs results),
    dedupeGo_hosts_nodup netloc results [],
    dedupeGo_ne_empty netloc results [],
    dedupeGo_first netloc results [], ?_⟩
  intro v hv
  rcases dedupeGo_covers netloc results [] v hv with h | h
  · simp at h
  · exact h

/-- C5 witness: with identity `netloc`, input
`[a, (no URL), a, b]` dedupes to `[a, b]`; `b` is the first (and only)
candidate URL with its host. -/
theorem dedupe_spec_witness :
    (dedupe (fun s => s)
        [SearchResult.mk (some "a"), SearchResult.mk none,
          SearchResult.mk (some "a"), SearchResult.mk (some "b")]).Sublist
      ([SearchResult.mk (some "a"), SearchResult.mk none,
          SearchResult.mk (some "a"),
          SearchResult.mk (some "b")].filterMap SearchResult.href)
    ∧ (candidateUrls
          [SearchResult.mk (some "a"), SearchResult.mk none,
            SearchResult.mk (some "a"), SearchResult.mk (some "b")]).find?
        (fun v => (fun s => s) v == (fun s => s) "b") = some "b" :=
  ⟨(dedupe_spec (fun s => s) _).1,
    (dedupe_spec (fun s => s)
      [SearchResult.mk (some "a"), SearchResult.mk none,
        SearchResult.mk (some "a"), SearchResult.mk (some "b")]).2.2.2.1 "b"
      (by decide)⟩

/-- C6: deduplication is idempotent: re-running deduplication on its own
output (wrapped back into search results) returns that output
unchanged. -/
theorem dedupe_idempotent (netloc : String → String)
    (results : List SearchResult) :
    dedupe netloc
        ((dedupe netloc results).map fun u => SearchResult.mk (some u))
      = dedupe netloc results :=
  dedupeGo_of_nodup netloc (dedupe netloc results) []
    (dedupeGo_hosts_nodup netloc results []) (fun u _ h => by simp at h)
    (dedupeGo_ne_empty netloc results [])

/-! ### Lemmas about the gather fan-out -/

theorem gatherRun_length {α : Type} (res : Nat → α) :
    ∀ (sched : List Nat) (acc : List (Option α)),
      (sched.foldl (gatherStep res) acc).length = acc.length := by
  intro sched
  induction sched with
  | nil => intro acc; rfl
  | cons s rest ih =>
    intro acc
    rw [List.foldl_cons, ih]
    exact List.length_set acc s _

theorem gatherRun_getElem {α : Type} (res : Nat → α) :
    ∀ (sched : List Nat) (acc : List (Option α)) (i : Nat), i < acc.length →
      (sched.foldl (gatherStep res) acc)[i]?
        = if i ∈ sched then some (some (res i)) else acc[i]? := by
  intro sched
  induction sched with
  | nil => intro acc i _; simp
  | cons s rest ih =>
    intro acc i hi
    rw [List.foldl_cons]
    have hlen : i < (gatherStep res acc s).length := by
      unfold gatherStep
      rw [List.length_set]
      exact hi
    rw [ih (gatherStep res acc s) i hlen]
    by_cases hr : i ∈ rest
    · rw [if_pos hr, if_pos (List.mem_cons_of_mem _ hr)]
    · rw [if_neg hr]
      by_cases hs : i = s
      · subst hs
        rw [if_pos (List.mem_cons_self _ _)]
        unfold gatherStep
        exact List.getElem?_set_self hi
      · rw [if_neg (by simp [hs, hr])]
        unfold gatherStep
        exact List.getElem?_set_ne (fun h => hs h.symm)

/-- C3: whatever order the concurrent fetches complete in, the gathered
extract list is index-aligned with the input URL list: slot `i` holds the
worker result for URL `i`. -/
theorem fan_out_order (f : String → ArticleExtract) (urls : List String)
    (sched : List Nat) (hp : sched.Perm (List.range urls.length)) :
    fanOut f urls sched = urls.map fun u => some (f u) := by
  apply List.ext_getElem?
  intro i
  unfold fanOut gatherRun
  by_cases hi : i < urls.length
  · have hacc : i < (List.replicate urls.length (none : Option ArticleExtract)).length := by
      rw [List.length_replicate]; exact hi
    rw [gatherRun_getElem _ sched _ i hacc]
    have hmem : i ∈ sched := hp.mem_iff.2 (List.mem_range.2 hi)
    rw [if_pos hmem]
    rw [List.getElem?_map, List.getElem?_eq_getElem hi]
    rw [List.getD_eq_getElem urls "" hi]
    rfl
  · have h1 : (sched.foldl (gatherStep fun i => f (urls.getD i ""))
        (List.replicate urls.length none)).length ≤ i := by
      rw [gatherRun_length, List.length_replicate]
      omega
    have h2 : (urls.map fun u => some (f u)).length ≤ i := by
      rw [List.length_map]
      omega
    rw [List.getElem?_eq_none h1, List.getElem?_eq_none h2]

/-- C3 witness: two URLs completing in reversed order still produce the
extract list in input order. -/
theorem fan_out_order_witness :
    fanOut (fun u => ArticleExtract.failure u "e") ["a", "b"] [1, 0]
      = List.map (fun u => some (ArticleExtract.failure u "e")) ["a", "b"] :=
  fan_out_order (fun u => ArticleExtract.failure u "e") ["a", "b"] [1, 0]
    (by decide)

/-! ### Lemmas about the formatter -/

theorem formatLines_append (a b : List ArticleExtract) :
    formatLines (a ++ b) = formatLines a ++ formatLines b := by
  induction a with
  | nil => rfl
  | cons x rest ih =>
    cases x with
    | success t s =>
      simp only [List.cons_append, formatLines, List.append_eq, ih]
    | failure u e =>
      simp only [List.cons_append, formatLines, List.append_eq, ih]

/-- C7: per-URL failure isolation.  An error-shaped extract contributes
nothing to the digest: the digest over a list containing the failure
equals the digest over the same list with the failure removed (no trace of
its URL or message), while every success-shaped sibling contributes its
full three-line block at its position. -/
theorem failure_isolation (l1 l2 : List ArticleExtract) (url err : String) :
    digestOf (l1 ++ ArticleExtract.failure url err :: l2) = digestOf (l1 ++ l2)
    ∧ ∀ t x, formatLines (l1 ++ ArticleExtract.success t x :: l2)
        = formatLines l1 ++ (codesOf "Title: " ++ t) :: (codesOf "Text: " ++ x)
            :: List.replicate 5 45 :: formatLines l2 := by
  constructor
  · unfold digestOf
    rw [show ArticleExtract.failure url err :: l2
        = [ArticleExtract.failure url err] ++ l2 from rfl]
    rw [formatLines_append, formatLines_append, formatLines_append]
    rfl
  · intro t x
    rw [show ArticleExtract.success t x :: l2
        = [ArticleExtract.success t x] ++ l2 from rfl]
    rw [formatLines_append, formatLines_append]
    rfl

/-! ### Lemmas about the retry loop -/

theorem getMaterial_all_retryable (oc : Nat → AttemptOutcome)
    (jitter : Nat → ℚ) (netloc : String → String)
    (f : String → ArticleExtract) (m : Nat → String)
    (h : ∀ i, oc i = AttemptOutcome.retryableErr (m i)) :
    get_material oc jitter netloc f 5 1
      = ⟨5, [1 * 2 ^ 0 + jitter 0, 1 * 2 ^ 1 + jitter 1,
          1 * 2 ^ 2 + jitter 2, 1 * 2 ^ 3 + jitter 3],
          some (Except.error (m 4))⟩ := by
  unfold get_material
  simp [getMaterialLoop, h 0, h 1, h 2, h 3, h 4]

theorem getMaterial_fatal (oc : Nat → AttemptOutcome) (jitter : Nat → ℚ)
    (netloc : String → String) (f : String → ArticleExtract) (e : String)
    (h : oc 0 = AttemptOutcome.fatalErr e) :
    get_material oc jitter netloc f 5 1 = ⟨1, [], some (Except.error e)⟩ := by
  unfold get_material
  simp [getMaterialLoop, h]

/-- C2 counterexample: with every attempt rate-limited and zero jitter,
only four sleeps happen (1, 2, 4, 8 seconds); there is no fifth 16-second
delay, because the fifth attempt re-raises instead of sleeping. -/
theorem retry_delays_cex :
    (get_material (fun _ => AttemptOutcome.retryableErr "rl") (fun _ => 0)
        (fun s => s) (fun u => ArticleExtract.failure u "e") 5 1).delays
      = [1, 2, 4, 8]
    ∧ (get_material (fun _ => AttemptOutcome.retryableErr "rl") (fun _ => 0)
        (fun s => s) (fun u => ArticleExtract.failure u "e") 5 1).delays
      ≠ [1, 2, 4, 8, 16] := by
  have h := getMaterial_all_retryable (fun _ => AttemptOutcome.retryableErr "rl")
    (fun _ => 0) (fun s => s) (fun u => ArticleExtract.failure u "e")
    (fun _ => "rl") (fun _ => rfl)
  rw [h]
  refine ⟨?_, ?_⟩
  · norm_num
  · norm_num

/-- C2 amended: on persistent rate-limit/provider errors exactly 5 attempts
run; the four inter-attempt delays are `1 * 2 ^ attempt + U(0,1)` for
attempts 0-3 (about 1, 2, 4, 8 seconds plus jitter); the fifth attempt's
error propagates without a further sleep; a non-retryable error propagates
immediately after one attempt. -/
theorem retry_policy :
    (∀ (oc : Nat → AttemptOutcome) (jitter : Nat → ℚ)
        (netloc : String → String) (f : String → ArticleExtract)
        (m : Nat → String), (∀ i, oc i = AttemptOutcome.retryableErr (m i)) →
        get_material oc jitter netloc f 5 1
          = ⟨5, [1 * 2 ^ 0 + jitter 0, 1 * 2 ^ 1 + jitter 1,
              1 * 2 ^ 2 + jitter 2, 1 * 2 ^ 3 + jitter 3],
              some (Except.error (m 4))⟩)
    ∧ (∀ (oc : Nat → AttemptOutcome) (jitter : Nat → ℚ)
        (netloc : String → String) (f : String → ArticleExtract) (e : String),
        oc 0 = AttemptOutcome.fatalErr e →
        get_material oc jitter netloc f 5 1 = ⟨1, [], some (Except.error e)⟩) :=
  ⟨getMaterial_all_retryable, getMaterial_fatal⟩

/-- C2 witness: concrete all-rate-limited and fatal-error runs. -/
theorem retry_policy_witness :
    get_material (fun _ => AttemptOutcome.retryableErr "rate limited")
        (fun _ => 0) (fun s => s) (fun u => ArticleExtract.failure u "e") 5 1
      = ⟨5, [1 * 2 ^ 0 + 0, 1 * 2 ^ 1 + 0, 1 * 2 ^ 2 + 0, 1 * 2 ^ 3 + 0],
          some (Except.error "rate limited")⟩
    ∧ get_material (fun _ => AttemptOutcome.fatalErr "boom") (fun _ => 0)
        (fun s => s) (fun u => ArticleExtract.failure u "e") 5 1
      = ⟨1, [], some (Except.error "boom")⟩ :=
  ⟨retry_policy.1 (fun _ => AttemptOutcome.retryableErr "rate limited")
      (fun _ => 0) (fun s => s) (fun u => ArticleExtract.failure u "e")
      (fun _ => "rate limited") (fun _ => rfl),
    retry_policy.2 (fun _ => AttemptOutcome.fatalErr "boom") (fun _ => 0)
      (fun s => s) (fun u => ArticleExtract.failure u "e") "boom" rfl⟩

/-- C9: a first attempt returning zero results ends the pipeline after one
attempt with the empty digest, served as `{"results": ""}` with status
200, and the per-URL fetch worker is never consulted (the trace does not
depend on it). -/
theorem empty_results_digest (oc : Nat → AttemptOutcome) (jitter : Nat → ℚ)
    (netloc : String → String) (f g : String → ArticleExtract)
    (h : oc 0 = AttemptOutcome.results []) :
    get_material oc jitter netloc f 5 1 = ⟨1, [], some (Except.ok [])⟩
    ∧ searchEndpoint (get_material oc jitter netloc f 5 1)
        = ApiResponse.ok (some [])
    ∧ statusOf (searchEndpoint (get_material oc jitter netloc f 5 1)) = 200
    ∧ get_material oc jitter netloc f 5 1
        = get_material oc jitter netloc g 5 1 := by
  have hf : get_material oc jitter netloc f 5 1 = ⟨1, [], some (Except.ok [])⟩ := by
    unfold get_material
    simp [getMaterialLoop, h, processResults]
  have hg : get_material oc jitter netloc g 5 1 = ⟨1, [], some (Except.ok [])⟩ := by
    unfold get_material
    simp [getMaterialLoop, h, processResults]
  refine ⟨hf, ?_, ?_, ?_⟩
  · rw [hf]; rfl
  · rw [hf]; rfl
  · rw [hf, hg]

/-- C9 witness: a concrete zero-result run. -/
theorem empty_results_digest_witness :
    get_material (fun _ => AttemptOutcome.results []) (fun _ => 0)
        (fun s => s) (fun u => ArticleExtract.failure u "1") 5 1
      = ⟨1, [], some (Except.ok [])⟩
    ∧ statusOf (searchEndpoint (get_material (fun _ => AttemptOutcome.results [])
        (fun _ => 0) (fun s => s) (fun u => ArticleExtract.failure u "1") 5 1))
      = 200 :=
  ⟨(empty_results_digest (fun _ => AttemptOutcome.results []) (fun _ => 0)
      (fun s => s) (fun u => ArticleExtract.failure u "1")
      (fun u => ArticleExtract.failure u "2") rfl).1,
    (empty_results_digest (fun _ => AttemptOutcome.results []) (fun _ => 0)
      (fun s => s) (fun u => ArticleExtract.failure u "1")
      (fun u => ArticleExtract.failure u "2") rfl).2.2.1⟩

/-- C10 witness: on `[200, 97]` the cleaned text is `[97]`:
ASCII, non-whitespace at both ends, and a fixed point of `clean_text`. -/
theorem clean_text_invariants_witness :
    97 < 128 ∧ pyIsSpace 97 = false
    ∧ cleanText (cleanText [200, 97]) = cleanText [200, 97] :=
  ⟨(clean_text_invariants [200, 97]).1 97 (by decide),
    (clean_text_invariants [200, 97]).2.1 97 (by decide),
    (clean_text_invariants [200, 97]).2.2.2⟩

end DDGS
